import Mathlib

/-!
Shallow embedding of the certifier batch-generation pipeline
(Next.js route handlers `api/generate/route.ts`, `api/analyze/route.ts`
and the client-side transformation in `app/page.tsx`), together with
theorems settling the specification claims about it.

JS objects are modelled as ordered association lists with unique keys,
JS strings as Lean `String`, binary blobs as `Nat` identifiers, and the
behaviour of the external converter / network calls as explicit outcome
parameters.
-/

namespace Certifier

/-- A JSON/JS object with string values, as an ordered association list
(JS object keys are unique; a read returns the first binding). -/
abbrev Row := List (String × String)

/-- JS property read `obj[key]`: `some v` when present, `none` (undefined) otherwise. -/
def getVal : Row → String → Option String
  | [], _ => none
  | (k, v) :: r, key => if k = key then some v else getVal r key

/-- JS `x || ""` applied to a string-or-undefined property read:
`undefined` and the empty string are falsy, any other string is kept. -/
def orEmpty : Option String → String
  | some v => if v = "" then "" else v
  | none => ""

/-- From `route.ts` `processItem`, mapping branch:
`for (const [placeholder, csvColumn] of Object.entries(mapping))
   renderData[placeholder] = row[csvColumn] || ""`. -/
def mapRow (mapping : List (String × String)) (row : Row) : Row :=
  mapping.map (fun p => (p.1, orEmpty (getVal row p.2)))

/-- From `route.ts` `processItem` step 1: `renderData = row`, replaced by the
mapped object only when `mapping && Object.keys(mapping).length > 0`. -/
def renderDataOf (mapping : List (String × String)) (row : Row) : Row :=
  if 0 < mapping.length then mapRow mapping row else row

theorem orEmpty_eq_getD (o : Option String) : orEmpty o = o.getD "" := by
  cases o with
  | none => rfl
  | some v =>
    simp only [orEmpty, Option.getD]
    split <;> simp_all

theorem getVal_mapRow_mem (m : List (String × String)) (r : Row)
    (hnd : (m.map Prod.fst).Nodup) (ph col : String) (hmem : (ph, col) ∈ m) :
    getVal (mapRow m r) ph = some (orEmpty (getVal r col)) := by
  induction m with
  | nil => cases hmem
  | cons hd tl ih =>
    simp only [List.map_cons, List.nodup_cons] at hnd
    rcases List.mem_cons.mp hmem with h | h
    · subst h
      simp [mapRow, getVal]
    · have hph : ph ∈ tl.map Prod.fst := List.mem_map.mpr ⟨(ph, col), h, rfl⟩
      have hne : hd.1 ≠ ph := fun he => hnd.1 (he ▸ hph)
      simpa [mapRow, getVal, hne] using ih hnd.2 h

theorem getVal_mapRow_not_mem (m : List (String × String)) (r : Row)
    (ph : String) (hph : ph ∉ m.map Prod.fst) :
    getVal (mapRow m r) ph = none := by
  induction m with
  | nil => rfl
  | cons hd tl ih =>
    simp only [List.map_cons, List.mem_cons, not_or] at hph
    simpa [mapRow, getVal, Ne.symm hph.1] using ih hph.2

/-- Claim C7: for every row and non-empty mapping with unique field names,
`mapRow` yields a context whose keys are exactly the mapping's fields; each
field receives the row's value under its mapped header, with `""` substituted
when the header is absent (never an error); fields absent from the mapping
are omitted from the output context. -/
theorem mapRow_contract (m : List (String × String)) (r : Row)
    (hne : m ≠ []) (hnd : (m.map Prod.fst).Nodup) :
    ((mapRow m r).map Prod.fst = m.map Prod.fst)
    ∧ (∀ ph col, (ph, col) ∈ m →
        getVal (mapRow m r) ph = some ((getVal r col).getD ""))
    ∧ (∀ ph, ph ∉ m.map Prod.fst → getVal (mapRow m r) ph = none) := by
  refine ⟨?_, ?_, ?_⟩
  · simp [mapRow, List.map_map]
  · intro ph col hmem
    rw [← orEmpty_eq_getD]
    exact getVal_mapRow_mem m r hnd ph col hmem
  · intro ph hph
    exact getVal_mapRow_not_mem m r ph hph

theorem mapRow_contract_witness :
    ((mapRow [("name", "Full Name")] [("Full Name", "Ada")]).map Prod.fst
        = [("name", "Full Name")].map Prod.fst)
    ∧ (∀ ph col, (ph, col) ∈ [("name", "Full Name")] →
        getVal (mapRow [("name", "Full Name")] [("Full Name", "Ada")]) ph
          = some ((getVal [("Full Name", "Ada")] col).getD ""))
    ∧ (∀ ph, ph ∉ ([("name", "Full Name")] : List (String × String)).map Prod.fst →
        getVal (mapRow [("name", "Full Name")] [("Full Name", "Ada")]) ph = none) :=
  mapRow_contract [("name", "Full Name")] [("Full Name", "Ada")]
    (by decide) (by decide)

/-- Claim C9: with an empty mapping object the generation endpoint passes
every row through unchanged as its own render context (identity), rather
than producing the empty context `mapRow` would give; the mapping branch is
taken exactly when the mapping has at least one key. -/
theorem emptyMapping_identity :
    (∀ r : Row, renderDataOf [] r = r)
    ∧ (∀ r : Row, mapRow [] r = [])
    ∧ (∀ (m : List (String × String)) (r : Row), m ≠ [] →
        renderDataOf m r = mapRow m r) := by
  refine ⟨fun r => rfl, fun r => rfl, fun m r hm => ?_⟩
  have : 0 < m.length := List.length_pos.mpr hm
  simp [renderDataOf, this]

theorem emptyMapping_identity_witness :
    renderDataOf [("name", "Full Name")] [] = mapRow [("name", "Full Name")] [] :=
  emptyMapping_identity.2.2 [("name", "Full Name")] [] (by decide)

/-- Sanitization `fileName.replace(/[^a-z0-9]/gi, '_')`: every character that is not an
ASCII letter or digit becomes an underscore. -/
def sanitize (s : String) : String :=
  String.mk (s.data.map (fun c => if c.isAlphanum then c else '_'))

/-- JS truthiness of a string property read: a present, non-empty string. -/
def truthyField (ctx : Row) (k : String) : Option String :=
  match getVal ctx k with
  | some v => if v = "" then none else some v
  | none => none

/-- From `route.ts` `processItem` step 5, output naming: prefer a truthy
`full_name` field, then a truthy `name` field (both sanitized), else
`certificate_${index + 1}.pdf`. -/
def fileName (ctx : Row) (index : Nat) : String :=
  match truthyField ctx "full_name" with
  | some v => sanitize v ++ ".pdf"
  | none =>
    match truthyField ctx "name" with
    | some v => sanitize v ++ ".pdf"
    | none => "certificate_" ++ toString (index + 1) ++ ".pdf"

/-- JSZip `zip.file(name, data)`: if an entry with that name exists its
content is replaced in place, otherwise a new entry is appended. -/
def zipFile : List (String × Nat) → String → Nat → List (String × Nat)
  | [], name, b => [(name, b)]
  | (n, b') :: rest, name, b =>
    if n = name then (n, b) :: rest else (n, b') :: zipFile rest name b

/-- Behaviour of the environment for one item of the processing loop:
`throws` — `doc.render` or `execAsync` rejects (the exception propagates out
of `await processItem`); `noPdf` — the converter exits normally but leaves no
output file (`fs.existsSync(pdfPath)` is false); `ok b` — a PDF with content
id `b` is produced. -/
inductive ItemOutcome where
  | throws : ItemOutcome
  | noPdf : ItemOutcome
  | ok : Nat → ItemOutcome
deriving DecidableEq, Repr

/-- Result of the `for (let i = 0; i < data.length; i++) await processItem(...)`
loop: the JSZip entries accumulated so far, the index at which an exception
aborted the loop (if any), and the indices logged and skipped for a missing
output file. -/
structure RunResult where
  archive : List (String × Nat)
  abortedAt : Option Nat
  skipped : List Nat
deriving DecidableEq, Repr

/-- The processing loop of `route.ts` `POST`, item by item.  An exception
propagates immediately (nothing later runs); a missing PDF is logged and
skipped; a produced PDF is added to the zip under its computed name. -/
def runAux (mapping : List (String × String)) :
    List (Row × ItemOutcome) → Nat → List (String × Nat) → RunResult
  | [], _, acc => ⟨acc, none, []⟩
  | (row, out) :: rest, i, acc =>
    match out with
    | .throws => ⟨acc, some i, []⟩
    | .noPdf =>
      let r := runAux mapping rest (i + 1) acc
      ⟨r.archive, r.abortedAt, i :: r.skipped⟩
    | .ok b =>
      runAux mapping rest (i + 1)
        (zipFile acc (fileName (renderDataOf mapping row) i) b)

/-- The whole processing loop, from the first item with an empty zip. -/
def runItems (mapping : List (String × String))
    (items : List (Row × ItemOutcome)) : RunResult :=
  runAux mapping items 0 []

/-- The archive entries the loop produces for the successfully converted
items, in input order, with their computed names. -/
def okEntries (mapping : List (String × String)) :
    List (Row × ItemOutcome) → Nat → List (String × Nat)
  | [], _ => []
  | (row, .ok b) :: rest, i =>
    (fileName (renderDataOf mapping row) i, b) :: okEntries mapping rest (i + 1)
  | _ :: rest, i => okEntries mapping rest (i + 1)

/-- The computed output names of a run, in input order. -/
def namesOf (mapping : List (String × String))
    (items : List (Row × ItemOutcome)) : List String :=
  (okEntries mapping items 0).map Prod.fst

/-- The indices of the items whose conversion leaves no output file. -/
def noPdfIndices : List (Row × ItemOutcome) → Nat → List Nat
  | [], _ => []
  | (_, .noPdf) :: rest, i => i :: noPdfIndices rest (i + 1)
  | _ :: rest, i => noPdfIndices rest (i + 1)

theorem zipFile_of_not_mem (acc : List (String × Nat)) (name : String) (b : Nat)
    (h : name ∉ acc.map Prod.fst) : zipFile acc name b = acc ++ [(name, b)] := by
  induction acc with
  | nil => rfl
  | cons hd tl ih =>
    simp only [List.map_cons, List.mem_cons, not_or] at h
    simp [zipFile, Ne.symm h.1, ih h.2]

theorem runAux_all_ok (mapping : List (String × String))
    (items : List (Row × ItemOutcome)) :
    ∀ (i : Nat) (acc : List (String × Nat)),
      (∀ p ∈ items, ∃ b, p.2 = ItemOutcome.ok b) →
      (acc.map Prod.fst ++ (okEntries mapping items i).map Prod.fst).Nodup →
      runAux mapping items i acc = ⟨acc ++ okEntries mapping items i, none, []⟩ := by
  induction items with
  | nil => intro i acc _ _; simp [runAux, okEntries]
  | cons hd tl ih =>
    intro i acc hok hnd
    obtain ⟨b, hb⟩ := hok hd (List.mem_cons_self hd tl)
    obtain ⟨row, out⟩ := hd
    simp only at hb
    subst hb
    simp only [okEntries, List.map_cons] at hnd
    have hnd2 := (List.nodup_middle).mp hnd
    have hname : fileName (renderDataOf mapping row) i ∉ acc.map Prod.fst := by
      intro hmem
      exact (List.nodup_cons.mp hnd2).1 (List.mem_append.mpr (Or.inl hmem))
    rw [runAux, zipFile_of_not_mem acc _ b hname]
    rw [ih (i + 1) (acc ++ [(fileName (renderDataOf mapping row) i, b)])
      (fun p hp => hok p (List.mem_cons_of_mem _ hp))
      (by
        simp only [List.map_append, List.map_cons, List.map_nil]
        rw [List.append_assoc, List.singleton_append]
        exact hnd)]
    simp [okEntries]

/-- Claim C1 counterexample: two successfully rendered contexts both carrying
`full_name` `"Ada"` compute the same output name; JSZip overwrites the first
entry, so the archive holds one entry (the second item's bytes), not the two
uniquely named entries the claim requires. -/
theorem archive_collision_counterexample :
    (runItems [] [([("full_name", "Ada")], ItemOutcome.ok 1),
                  ([("full_name", "Ada")], ItemOutcome.ok 2)]).archive
      = [("Ada.pdf", 2)]
    ∧ (runItems [] [([("full_name", "Ada")], ItemOutcome.ok 1),
                    ([("full_name", "Ada")], ItemOutcome.ok 2)]).archive.length ≠ 2 := by
  constructor
  · rfl
  · decide

/-- Claim C1 (amended): when all renders succeed and the computed output
names are pairwise distinct, the archive has exactly one entry per context,
in input order, with pairwise-unique names; when two computed names collide
the later item's bytes silently replace the earlier entry (last writer wins),
with no disambiguation. -/
theorem archive_entries_when_names_distinct (mapping : List (String × String))
    (items : List (Row × ItemOutcome))
    (hok : ∀ p ∈ items, ∃ b, p.2 = ItemOutcome.ok b)
    (hnd : (namesOf mapping items).Nodup) :
    (runItems mapping items).archive = okEntries mapping items 0
    ∧ (runItems mapping items).archive.length = items.length
    ∧ ((runItems mapping items).archive.map Prod.fst).Nodup := by
  have hlen : ∀ l i, (∀ p ∈ l, ∃ b, p.2 = ItemOutcome.ok b) →
      (okEntries mapping l i).length = l.length := by
    intro l
    induction l with
    | nil => intro i _; rfl
    | cons hd tl ih =>
      intro i h
      obtain ⟨b, hb⟩ := h hd (List.mem_cons_self hd tl)
      obtain ⟨row, out⟩ := hd
      simp only at hb
      subst hb
      simp [okEntries, ih (i + 1) (fun p hp => h p (List.mem_cons_of_mem _ hp))]
  have hrun := runAux_all_ok mapping items 0 [] hok (by simpa [namesOf] using hnd)
  unfold runItems
  rw [hrun]
  refine ⟨by simp, by simpa using hlen items 0 hok, by simpa [namesOf] using hnd⟩

theorem archive_entries_when_names_distinct_witness :
    (runItems [] [([("full_name", "Ada")], ItemOutcome.ok 1),
                  ([("full_name", "Bo")], ItemOutcome.ok 2)]).archive
        = okEntries [] [([("full_name", "Ada")], ItemOutcome.ok 1),
                        ([("full_name", "Bo")], ItemOutcome.ok 2)] 0
    ∧ (runItems [] [([("full_name", "Ada")], ItemOutcome.ok 1),
                    ([("full_name", "Bo")], ItemOutcome.ok 2)]).archive.length
        = ([([("full_name", "Ada")], ItemOutcome.ok 1),
            ([("full_name", "Bo")], ItemOutcome.ok 2)] : List (Row × ItemOutcome)).length
    ∧ (((runItems [] [([("full_name", "Ada")], ItemOutcome.ok 1),
                      ([("full_name", "Bo")], ItemOutcome.ok 2)]).archive.map
          Prod.fst).Nodup) :=
  archive_entries_when_names_distinct []
    [([("full_name", "Ada")], ItemOutcome.ok 1),
     ([("full_name", "Bo")], ItemOutcome.ok 2)]
    (by
      intro p hp
      rcases List.mem_cons.mp hp with h | hp2
      · exact ⟨1, by rw [h]⟩
      rcases List.mem_cons.mp hp2 with h | hp3
      · exact ⟨2, by rw [h]⟩
      cases hp3)
    (by decide)

theorem runAux_abortedAt_none (mapping : List (String × String))
    (items : List (Row × ItemOutcome)) :
    ∀ (i : Nat) (acc : List (String × Nat)),
      (∀ p ∈ items, p.2 ≠ ItemOutcome.throws) →
      (runAux mapping items i acc).abortedAt = none
      ∧ (runAux mapping items i acc).skipped = noPdfIndices items i := by
  induction items with
  | nil => intro i acc _; exact ⟨rfl, rfl⟩
  | cons hd tl ih =>
    intro i acc hnt
    obtain ⟨row, out⟩ := hd
    have hhd := hnt (row, out) (List.mem_cons_self _ _)
    have htl : ∀ p ∈ tl, p.2 ≠ ItemOutcome.throws :=
      fun p hp => hnt p (List.mem_cons_of_mem _ hp)
    cases out with
    | throws => exact absurd rfl hhd
    | noPdf =>
      have := ih (i + 1) acc htl
      simp [runAux, noPdfIndices, this.1, this.2]
    | ok b =>
      have := ih (i + 1)
        (zipFile acc (fileName (renderDataOf mapping row) i) b) htl
      simp [runAux, noPdfIndices, this.1, this.2]

/-- Claim C2 counterexample: a thrown render error on the first context
(`doc.render` rejecting inside `await processItem`) propagates out of the
loop — the run aborts at index 0, the later context is never rendered (the
archive stays empty although its conversion would succeed), and nothing is
recorded as skipped. -/
theorem render_failure_aborts_counterexample :
    runItems [] [(([] : Row), ItemOutcome.throws),
                 ([("full_name", "Bo")], ItemOutcome.ok 5)]
      = ⟨[], some 0, []⟩ := by
  rfl

/-- Claim C2 (amended): only a conversion failure that leaves no output file
is isolated to its context — it is recorded (logged and skipped) against
exactly the indices of such items and does not abort the remaining sequence;
when no context throws, the loop runs to completion with no abort.  An
exception thrown while rendering, serializing or invoking the converter
instead aborts the whole request (outer catch, HTTP 500), leaving every
later context unrendered. -/
theorem missing_pdf_skipped_no_abort (mapping : List (String × String))
    (items : List (Row × ItemOutcome))
    (hnt : ∀ p ∈ items, p.2 ≠ ItemOutcome.throws) :
    (runItems mapping items).abortedAt = none
    ∧ (runItems mapping items).skipped = noPdfIndices items 0 := by
  exact runAux_abortedAt_none mapping items 0 [] hnt

theorem missing_pdf_skipped_no_abort_witness :
    (runItems [] [(([] : Row), ItemOutcome.noPdf),
                  ([("full_name", "Bo")], ItemOutcome.ok 5)]).abortedAt = none
    ∧ (runItems [] [(([] : Row), ItemOutcome.noPdf),
                    ([("full_name", "Bo")], ItemOutcome.ok 5)]).skipped
        = noPdfIndices [(([] : Row), ItemOutcome.noPdf),
                        ([("full_name", "Bo")], ItemOutcome.ok 5)] 0 :=
  missing_pdf_skipped_no_abort []
    [(([] : Row), ItemOutcome.noPdf), ([("full_name", "Bo")], ItemOutcome.ok 5)]
    (by
      intro p hp
      rcases List.mem_cons.mp hp with h | hp2
      · rw [h]; intro hc; cases hc
      rcases List.mem_cons.mp hp2 with h | hp3
      · rw [h]; intro hc; cases hc
      cases hp3)

/-- The environment configuration read from `process.env` in the email
delivery branch of `route.ts`; `none` models an unset variable. -/
structure Config where
  r2AccountId : Option String
  r2AccessKeyId : Option String
  r2SecretAccessKey : Option String
  r2BucketName : Option String
  resendApiKey : Option String
  senderEmail : Option String
deriving DecidableEq, Repr

/-- JS truthiness of an environment variable: set and non-empty. -/
def truthyEnv : Option String → Bool
  | some s => !(s == "")
  | none => false

/-- The `if (!R2_ACCOUNT_ID || !R2_ACCESS_KEY_ID || !R2_SECRET_ACCESS_KEY ||
!R2_BUCKET_NAME || !RESEND_API_KEY)` configuration check of `route.ts`
(`SENDER_EMAIL` is not part of it — it falls back to a default). -/
def configOk (c : Config) : Bool :=
  truthyEnv c.r2AccountId && truthyEnv c.r2AccessKeyId
    && truthyEnv c.r2SecretAccessKey && truthyEnv c.r2BucketName
    && truthyEnv c.resendApiKey

/-- The fallback `SENDER_EMAIL = process.env.SENDER_EMAIL || 'onboarding@resend.dev'`. -/
def senderOf (c : Config) : String :=
  match c.senderEmail with
  | some s => if s = "" then "onboarding@resend.dev" else s
  | none => "onboarding@resend.dev"

/-- One generation request to `POST /api/generate`: presence of the three
required multipart fields, the delivery method string, the recipient
(`""` models an absent `email` field), the parsed mapping, and the rows
paired with their environment-determined processing outcome. -/
structure GenRequest where
  hasTemplate : Bool
  hasData : Bool
  hasMapping : Bool
  deliveryMethod : String
  email : String
  mapping : List (String × String)
  items : List (Row × ItemOutcome)

/-- Observable outcome of one `POST /api/generate` call: HTTP status,
number of object-storage upload attempts, number of email-send attempts,
whether the temporary working directory was created, whether it was
recursively removed, and the final zip entries. -/
structure PostResult where
  status : Nat
  uploads : Nat
  emailSends : Nat
  tempDirCreated : Bool
  tempDirRemoved : Bool
  archive : List (String × Nat)
deriving DecidableEq, Repr

/-- The `POST` handler of `route.ts`: field validation, the email-presence
check, temp-dir creation, the sequential processing loop (an exception
reaches the outer catch, skipping the `fs.promises.rm` cleanup), temp-dir
removal, then delivery — for `email` mode the env-config check precedes the
upload, the upload precedes the send (`uploadOk` / `sendOk` model whether
those external calls succeed). -/
def post (r : GenRequest) (cfg : Config) (uploadOk sendOk : Bool) : PostResult :=
  if !(r.hasTemplate && r.hasData && r.hasMapping) then
    ⟨400, 0, 0, false, false, []⟩
  else if r.deliveryMethod == "email" && r.email == "" then
    ⟨400, 0, 0, false, false, []⟩
  else
    match (runItems r.mapping r.items).abortedAt with
    | some _ => ⟨500, 0, 0, true, false, (runItems r.mapping r.items).archive⟩
    | none =>
      if r.deliveryMethod == "email" then
        if !(configOk cfg) then
          ⟨500, 0, 0, true, true, (runItems r.mapping r.items).archive⟩
        else if !uploadOk then
          ⟨500, 1, 0, true, true, (runItems r.mapping r.items).archive⟩
        else if !sendOk then
          ⟨500, 1, 1, true, true, (runItems r.mapping r.items).archive⟩
        else ⟨200, 1, 1, true, true, (runItems r.mapping r.items).archive⟩
      else ⟨200, 0, 0, true, true, (runItems r.mapping r.items).archive⟩

/-- From `page.tsx`: `deliveryMethod === 'download' ||
(deliveryMethod === 'email' && email.includes('@'))` — the client-side guard
that keeps the generate button disabled. -/
def isDeliveryValid (deliveryMethod : String) (email : String) : Bool :=
  deliveryMethod == "download"
    || (deliveryMethod == "email" && email.data.contains '@')

/-- Claim C3 counterexample: a non-empty recipient without `'@'` passes the
server-side check (`!email` only rejects an absent/empty value), so with
complete configuration the request proceeds to an object-storage upload and
an email send instead of failing validation. -/
theorem at_sign_not_validated_counterexample :
    ("bob" : String).data.contains '@' = false
    ∧ (post ⟨true, true, true, "email", "bob", [], []⟩
        ⟨some "acct", some "key", some "secret", some "bucket", some "resend",
          some "from@x.io"⟩ true true).uploads = 1
    ∧ (post ⟨true, true, true, "email", "bob", [], []⟩
        ⟨some "acct", some "key", some "secret", some "bucket", some "resend",
          some "from@x.io"⟩ true true).status = 200 := by
  refine ⟨by decide, rfl, rfl⟩

/-- Claim C3 (amended): the `'@'` requirement exists only as a client-side
guard — `isDeliveryValid` is false in email mode whenever the address lacks
`'@'`, keeping the generate button disabled; server-side, the endpoint
rejects an email-mode request before any processing or network call exactly
when the recipient is absent/empty, answering 400 with zero uploads and
zero sends. -/
theorem email_validation_split (e : String) (he : e.data.contains '@' = false) :
    isDeliveryValid "email" e = false
    ∧ (∀ (r : GenRequest) (cfg : Config) (u s : Bool),
        r.deliveryMethod = "email" → r.email = "" →
        post r cfg u s = ⟨400, 0, 0, false, false, []⟩) := by
  constructor
  · have h2 : '@' ∉ e.data := by simpa using he
    simp [isDeliveryValid, h2]
  · intro r cfg u s hdm he'
    have hcond : (r.deliveryMethod == "email" && r.email == "") = true := by
      simp [hdm, he']
    unfold post
    split
    · rfl
    · rfl

theorem email_validation_split_witness :
    isDeliveryValid "email" "bob" = false
    ∧ post ⟨true, true, true, "email", "", [], []⟩
        ⟨some "acct", some "key", some "secret", some "bucket", some "resend",
          none⟩ true true
        = ⟨400, 0, 0, false, false, []⟩ :=
  ⟨(email_validation_split "bob" (by decide)).1,
    (email_validation_split "bob" (by decide)).2
      ⟨true, true, true, "email", "", [], []⟩
      ⟨some "acct", some "key", some "secret", some "bucket", some "resend",
        none⟩ true true rfl rfl⟩

/-- Claim C4 counterexample: with the five R2/Resend values present but the
sender address unset, the email-mode request does not fail with a
configuration error — the default sender is used, the upload and the send
are attempted, and the request succeeds. -/
theorem sender_not_required_counterexample :
    (⟨some "acct", some "key", some "secret", some "bucket", some "resend",
        none⟩ : Config).senderEmail = none
    ∧ post ⟨true, true, true, "email", "a@b.io", [], []⟩
        ⟨some "acct", some "key", some "secret", some "bucket", some "resend",
          none⟩ true true
        = ⟨200, 1, 1, true, true, []⟩
    ∧ senderOf ⟨some "acct", some "key", some "secret", some "bucket",
        some "resend", none⟩ = "onboarding@resend.dev" := by
  refine ⟨rfl, rfl, rfl⟩

/-- Claim C4 (amended): if any of the five required configuration values
(object-storage account id, access key, secret key, bucket name, email API
key) is absent or empty, the request performs zero uploads and zero sends —
the check precedes any upload — and an email-mode request does not succeed;
the sender address is not required: when unset, a fixed default sender is
used instead. -/
theorem config_checked_before_upload :
    (∀ (r : GenRequest) (cfg : Config) (u s : Bool), configOk cfg = false →
      (post r cfg u s).uploads = 0 ∧ (post r cfg u s).emailSends = 0
      ∧ (r.deliveryMethod = "email" → (post r cfg u s).status ≠ 200))
    ∧ (∀ cfg : Config, cfg.senderEmail = none →
        senderOf cfg = "onboarding@resend.dev") := by
  constructor
  · intro r cfg u s hc
    unfold post
    split
    · exact ⟨rfl, rfl, fun _ => (by decide : (400 : Nat) ≠ 200)⟩
    split
    · exact ⟨rfl, rfl, fun _ => (by decide : (400 : Nat) ≠ 200)⟩
    split
    · exact ⟨rfl, rfl, fun _ => (by decide : (500 : Nat) ≠ 200)⟩
    split
    · rw [if_pos (show (!configOk cfg) = true by simp [hc])]
      exact ⟨rfl, rfl, fun _ => (by decide : (500 : Nat) ≠ 200)⟩
    next hne =>
      refine ⟨rfl, rfl, fun hdm => ?_⟩
      exact absurd (by simp [hdm]) hne
  · intro cfg hs
    simp [senderOf, hs]

theorem config_checked_before_upload_witness :
    ((post ⟨true, true, true, "email", "a@b.io", [], []⟩
        ⟨none, some "key", some "secret", some "bucket", some "resend",
          some "from@x.io"⟩ true true).uploads = 0
      ∧ (post ⟨true, true, true, "email", "a@b.io", [], []⟩
          ⟨none, some "key", some "secret", some "bucket", some "resend",
            some "from@x.io"⟩ true true).emailSends = 0
      ∧ (post ⟨true, true, true, "email", "a@b.io", [], []⟩
          ⟨none, some "key", some "secret", some "bucket", some "resend",
            some "from@x.io"⟩ true true).status ≠ 200)
    ∧ senderOf ⟨some "acct", some "key", some "secret", some "bucket",
        some "resend", none⟩ = "onboarding@resend.dev" :=
  ⟨⟨(config_checked_before_upload.1 ⟨true, true, true, "email", "a@b.io", [], []⟩
      ⟨none, some "key", some "secret", some "bucket", some "resend",
        some "from@x.io"⟩ true true rfl).1,
    (config_checked_before_upload.1 ⟨true, true, true, "email", "a@b.io", [], []⟩
      ⟨none, some "key", some "secret", some "bucket", some "resend",
        some "from@x.io"⟩ true true rfl).2.1,
    (config_checked_before_upload.1 ⟨true, true, true, "email", "a@b.io", [], []⟩
      ⟨none, some "key", some "secret", some "bucket", some "resend",
        some "from@x.io"⟩ true true rfl).2.2 rfl⟩,
    config_checked_before_upload.2 ⟨some "acct", some "key", some "secret",
      some "bucket", some "resend", none⟩ rfl⟩

/-- Claim C5 counterexample: a per-item exception jumps to the outer catch
handler, which answers 500 without running the `fs.promises.rm` cleanup —
the temporary working directory is created but never removed on that path. -/
theorem tempdir_leak_counterexample :
    (post ⟨true, true, true, "download", "", [],
        [(([] : Row), ItemOutcome.throws)]⟩
      ⟨none, none, none, none, none, none⟩ true true).tempDirCreated = true
    ∧ (post ⟨true, true, true, "download", "", [],
        [(([] : Row), ItemOutcome.throws)]⟩
      ⟨none, none, none, none, none, none⟩ true true).tempDirRemoved = false := by
  refine ⟨rfl, rfl⟩

/-- Claim C5 (amended): the temporary working directory is removed whenever
it was created and no per-item exception aborts the processing loop —
removal happens right after the loop, before delivery, so success and every
delivery-phase failure remove it — but a thrown per-item error reaches the
outer catch without the recursive removal, leaking the directory. -/
theorem tempdir_removed_when_no_throw (r : GenRequest) (cfg : Config)
    (u s : Bool) (hnt : ∀ p ∈ r.items, p.2 ≠ ItemOutcome.throws) :
    (post r cfg u s).tempDirCreated = (post r cfg u s).tempDirRemoved := by
  have h0 : (runItems r.mapping r.items).abortedAt = none := by
    rw [runItems]
    exact (runAux_abortedAt_none r.mapping r.items 0 [] hnt).1
  unfold post
  split
  · rfl
  split
  · rfl
  split
  next x heq =>
    rw [h0] at heq
    cases heq
  next heq =>
    split
    · split
      · rfl
      · split
        · rfl
        · split <;> rfl
    · rfl

theorem tempdir_removed_when_no_throw_witness :
    (post ⟨true, true, true, "download", "", [],
        [([("full_name", "Ada")], ItemOutcome.ok 1)]⟩
      ⟨none, none, none, none, none, none⟩ true true).tempDirCreated
    = (post ⟨true, true, true, "download", "", [],
        [([("full_name", "Ada")], ItemOutcome.ok 1)]⟩
      ⟨none, none, none, none, none, none⟩ true true).tempDirRemoved :=
  tempdir_removed_when_no_throw
    ⟨true, true, true, "download", "", [],
      [([("full_name", "Ada")], ItemOutcome.ok 1)]⟩
    ⟨none, none, none, none, none, none⟩ true true
    (by
      intro p hp
      rcases List.mem_cons.mp hp with h | hp2
      · rw [h]; intro hc; cases hc
      cases hp2)

/-- JS `Set.add` / first-time object-key creation: appends an element unless
it is already present, preserving first-occurrence order. -/
def setAdd (l : List String) (x : String) : List String :=
  if x ∈ l then l else l ++ [x]

/-- Collect a list into a JS `Set` (insertion order, first occurrence kept). -/
def setOfList (l : List String) : List String :=
  l.foldl setAdd []

theorem mem_foldl_setAdd (l : List String) :
    ∀ (acc : List String) (x : String),
      x ∈ l.foldl setAdd acc ↔ x ∈ acc ∨ x ∈ l := by
  induction l with
  | nil => intro acc x; simp
  | cons hd tl ih =>
    intro acc x
    rw [List.foldl_cons, ih]
    unfold setAdd
    by_cases hh : hd ∈ acc
    · rw [if_pos hh]
      constructor
      · rintro (h | h)
        · exact Or.inl h
        · exact Or.inr (List.mem_cons_of_mem _ h)
      · rintro (h | h)
        · exact Or.inl h
        · rcases List.mem_cons.mp h with h | h
          · exact Or.inl (h ▸ hh)
          · exact Or.inr h
    · rw [if_neg hh]
      simp only [List.mem_append, List.mem_singleton, List.mem_cons]
      tauto

theorem mem_setOfList (l : List String) (x : String) :
    x ∈ setOfList l ↔ x ∈ l := by
  rw [setOfList, mem_foldl_setAdd]
  simp

theorem nodup_foldl_setAdd (l : List String) :
    ∀ acc : List String, acc.Nodup → (l.foldl setAdd acc).Nodup := by
  induction l with
  | nil => intro acc h; exact h
  | cons hd tl ih =>
    intro acc hacc
    rw [List.foldl_cons]
    refine ih _ ?_
    unfold setAdd
    by_cases hh : hd ∈ acc
    · rw [if_pos hh]; exact hacc
    · rw [if_neg hh]
      simpa [List.nodup_append] using ⟨hacc, hh⟩

theorem nodup_setOfList (l : List String) : (setOfList l).Nodup :=
  nodup_foldl_setAdd l [] List.nodup_nil

theorem setOfList_append_one (l : List String) (x : String) :
    setOfList (l ++ [x]) = setAdd (setOfList l) x := by
  rw [setOfList, List.foldl_append]
  rfl

/-- A value of a render context built by client-side grouping: either a
scalar string or, under a loop name, the ordered list of the group's mapped
rows. -/
inductive GVal where
  | str : String → GVal
  | rows : List Row → GVal
deriving DecidableEq, Repr

/-- A grouped render context (`rootItem` in `page.tsx`). -/
abbrev Ctx := List (String × GVal)

/-- JS property assignment `obj[key] = v`: replaces an existing binding in
place, otherwise appends a new one. -/
def setKey : Ctx → String → GVal → Ctx
  | [], k, v => [(k, v)]
  | (k', v') :: rest, k, v =>
    if k' = k then (k', v) :: rest else (k', v') :: setKey rest k v

/-- Spread `{ ...mappedRow }`: the shallow spread of a flat string-valued row into
a fresh context. -/
def liftRow (m : Row) : Ctx :=
  m.map (fun p => (p.1, GVal.str p.2))

/-- From `page.tsx` `handleGenerate`: `const rootItem = { ...groupItems[0] };
docxLoops.forEach(loopName => { rootItem[loopName] = groupItems; })`. -/
def mkRoot (loops : List String) (groupItems : List Row) : Ctx :=
  loops.foldl (fun r ln => setKey r ln (GVal.rows groupItems))
    (liftRow (groupItems.headD []))

/-- The property key `groups[groupKey]` is indexed with: the raw value of
the group-by column, or the string `"undefined"` when the column is absent
from the row (JS coerces the `undefined` key to that string). -/
def groupKeyOf (row : Row) (gcol : String) : String :=
  match getVal row gcol with
  | some v => v
  | none => "undefined"

/-- One iteration of `if (!groups[groupKey]) groups[groupKey] = [];
groups[groupKey].push(mappedData[index])`: append the mapped row to the
existing group, or create a new group at the end. -/
def pushGroup : List (String × List Row) → String → Row → List (String × List Row)
  | [], k, m => [(k, [m])]
  | (k', ms) :: gs, k, m =>
    if k' = k then (k', ms ++ [m]) :: gs else (k', ms) :: pushGroup gs k m

/-- The `csvData.forEach` accumulation of `page.tsx` over the lock-step
pairs of raw row and mapped row. -/
def buildGroups (gcol : String) (l : List (Row × Row)) : List (String × List Row) :=
  l.foldl (fun gs p => pushGroup gs (groupKeyOf p.1 gcol) p.2) []

/-- Decimal value of a character list, `none` unless all are digits. -/
def digitsVal (acc : Nat) : List Char → Option Nat
  | [] => some acc
  | c :: cs =>
    if c.isDigit then digitsVal (acc * 10 + (c.toNat - 48)) cs else none

/-- An ECMAScript array-index property key: the canonical decimal form
(digits only, no leading zero except `"0"` itself) of an integer below
2^32 − 1. -/
def isArrayIndexKey (s : String) : Bool :=
  match s.data with
  | [] => false
  | c :: cs =>
    match digitsVal 0 (c :: cs) with
    | some n => (c != '0' || cs.isEmpty) && n < 4294967295
    | none => false

/-- Numeric value used to order array-index keys. -/
def keyNum (s : String) : Nat :=
  (digitsVal 0 s.data).getD 0

def insertByIndex (p : String × List Row) :
    List (String × List Row) → List (String × List Row)
  | [] => [p]
  | q :: rest =>
    if keyNum p.1 < keyNum q.1 then p :: q :: rest else q :: insertByIndex p rest

def sortByIndex : List (String × List Row) → List (String × List Row)
  | [] => []
  | p :: rest => insertByIndex p (sortByIndex rest)

/-- Enumeration `Object.values(groups)`: ECMAScript own-property order —
array-index-like keys first, in ascending numeric order, then the remaining
string keys in insertion order. -/
def jsEntryOrder (gs : List (String × List Row)) : List (String × List Row) :=
  sortByIndex (gs.filter (fun p => isArrayIndexKey p.1))
    ++ gs.filter (fun p => !isArrayIndexKey p.1)

/-- The grouping branch of `page.tsx` `handleGenerate`: build the group
record over the lock-step row pairs, then map each of `Object.values(groups)`
to a root context. -/
def groupRows (rows mapped : List Row) (gcol : String) (loops : List String) :
    List Ctx :=
  (jsEntryOrder (buildGroups gcol (rows.zip mapped))).map
    (fun p => mkRoot loops p.2)

/-- Modelled from the wording of the claim/spec (the comparison point of the
grouping claim): partition the lock-step rows by group key in
first-occurrence key order, with within-group order preserved, and emit one
root context per group in that order. -/
def specGroupRows (rows mapped : List Row) (gcol : String) (loops : List String) :
    List Ctx :=
  (setOfList ((rows.zip mapped).map (fun p => groupKeyOf p.1 gcol))).map
    (fun k => mkRoot loops
      (((rows.zip mapped).filter (fun p => groupKeyOf p.1 gcol == k)).map
        Prod.snd))

/-- First-occurrence partition of keyed pairs, as ordered (key, members). -/
def specPartition (gcol : String) (l : List (Row × Row)) :
    List (String × List Row) :=
  (setOfList (l.map (fun p => groupKeyOf p.1 gcol))).map
    (fun k => (k, (l.filter (fun p => groupKeyOf p.1 gcol == k)).map Prod.snd))

theorem specPartition_map_fst (gcol : String) (l : List (Row × Row)) :
    (specPartition gcol l).map Prod.fst
      = setOfList (l.map (fun p => groupKeyOf p.1 gcol)) := by
  rw [specPartition, List.map_map]
  exact List.map_id _

theorem pushGroup_spec (k : String) (m : Row) :
    ∀ gs : List (String × List Row), (gs.map Prod.fst).Nodup →
      pushGroup gs k m
        = if k ∈ gs.map Prod.fst
          then gs.map (fun q => if q.1 = k then (q.1, q.2 ++ [m]) else q)
          else gs ++ [(k, [m])] := by
  intro gs
  induction gs with
  | nil => intro _; simp [pushGroup]
  | cons hd tl ih =>
    intro hnd
    obtain ⟨k', ms⟩ := hd
    simp only [List.map_cons, List.nodup_cons] at hnd
    by_cases he : k' = k
    · subst he
      have hmap : tl.map (fun q => if q.1 = k' then (q.1, q.2 ++ [m]) else q) = tl := by
        have h1 : ∀ q ∈ tl, (if q.1 = k' then (q.1, q.2 ++ [m]) else q) = id q := by
          intro q hq
          have hqk : q.1 ≠ k' := fun hc => hnd.1 (hc ▸ List.mem_map.mpr ⟨q, hq, rfl⟩)
          simp [hqk]
        rw [List.map_congr_left h1, List.map_id]
      simp [pushGroup, hmap]
    · have hne2 : ¬ k = k' := fun hc => he hc.symm
      simp only [pushGroup, if_neg he, List.map_cons, List.mem_cons]
      rw [ih hnd.2]
      by_cases hmem : k ∈ tl.map Prod.fst
      · simp [hmem, he, hne2]
      · simp [hmem, he, hne2]

theorem specPartition_append (gcol : String) (l : List (Row × Row))
    (p : Row × Row) :
    specPartition gcol (l ++ [p])
      = pushGroup (specPartition gcol l) (groupKeyOf p.1 gcol) p.2 := by
  have hnd : ((specPartition gcol l).map Prod.fst).Nodup := by
    rw [specPartition_map_fst]
    exact nodup_setOfList _
  rw [pushGroup_spec _ _ _ hnd, specPartition_map_fst]
  have hmapk : (l ++ [p]).map (fun q => groupKeyOf q.1 gcol)
      = l.map (fun q => groupKeyOf q.1 gcol) ++ [groupKeyOf p.1 gcol] := by
    simp
  by_cases hk : groupKeyOf p.1 gcol
      ∈ setOfList (l.map (fun q => groupKeyOf q.1 gcol))
  · rw [if_pos hk]
    unfold specPartition
    rw [hmapk, setOfList_append_one, setAdd, if_pos hk, List.map_map]
    apply List.map_congr_left
    intro k' _
    simp only [Function.comp]
    by_cases hkk : k' = groupKeyOf p.1 gcol
    · subst hkk
      simp [List.filter_append, List.filter_singleton]
    · have hkk2 : ¬ groupKeyOf p.1 gcol = k' := fun hc => hkk hc.symm
      simp [List.filter_append, List.filter_singleton, hkk, hkk2]
  · rw [if_neg hk]
    unfold specPartition
    rw [hmapk, setOfList_append_one, setAdd, if_neg hk, List.map_append]
    congr 1
    · apply List.map_congr_left
      intro k' hk'
      have hne : ¬ groupKeyOf p.1 gcol = k' := fun hc => hk (hc ▸ hk')
      simp [List.filter_append, List.filter_singleton, hne]
    · have hnil : l.filter
          (fun q => groupKeyOf q.1 gcol == groupKeyOf p.1 gcol) = [] := by
        rw [List.filter_eq_nil_iff]
        intro q hq hcq
        apply hk
        rw [mem_setOfList]
        exact List.mem_map.mpr ⟨q, hq, by simpa using hcq⟩
      simp [List.filter_append, List.filter_singleton, hnil]

theorem buildGroups_eq_specPartition (gcol : String) (l : List (Row × Row)) :
    buildGroups gcol l = specPartition gcol l := by
  induction l using List.reverseRecOn with
  | nil => rfl
  | append_singleton l p ih =>
    rw [buildGroups, List.foldl_append, List.foldl_cons, List.foldl_nil]
    rw [show l.foldl (fun gs q => pushGroup gs (groupKeyOf q.1 gcol) q.2) []
        = buildGroups gcol l from rfl]
    rw [ih, specPartition_append]

theorem jsEntryOrder_of_no_index (gs : List (String × List Row))
    (h : ∀ q ∈ gs, isArrayIndexKey q.1 = false) :
    jsEntryOrder gs = gs := by
  unfold jsEntryOrder
  have h1 : gs.filter (fun q => isArrayIndexKey q.1) = [] := by
    rw [List.filter_eq_nil_iff]
    intro q hq
    simp [h q hq]
  have h2 : gs.filter (fun q => !isArrayIndexKey q.1) = gs := by
    rw [List.filter_eq_self]
    intro q hq
    simp [h q hq]
  rw [h1, h2]
  rfl

/-- Claim C6 counterexample: with raw group keys `"2"` (first) and `"1"`
(second), `Object.values` enumerates the integer-like keys in ascending
numeric order, so the context of the `"1"` group comes first — not the
first-occurrence order the claim requires (the `"2"` group first). -/
theorem grouping_numeric_key_counterexample :
    groupRows [[("id", "2")], [("id", "1")]] [[("n", "B")], [("n", "A")]]
        "id" ["items"]
      ≠ specGroupRows [[("id", "2")], [("id", "1")]] [[("n", "B")], [("n", "A")]]
        "id" ["items"]
    ∧ groupRows [[("id", "2")], [("id", "1")]] [[("n", "B")], [("n", "A")]]
        "id" ["items"]
      = [[("n", GVal.str "A"), ("items", GVal.rows [[("n", "A")]])],
         [("n", GVal.str "B"), ("items", GVal.rows [[("n", "B")]])]] := by
  constructor
  · decide
  · rfl

/-- Claim C6 (amended): `groupRows` partitions the lock-step rows by the raw
value of the group-by header with within-group row order preserved, builds
one root context per group as a shallow copy of the group's first mapped row
with every loop name bound to the ordered list of the group's mapped rows,
and emits the groups in JS own-property enumeration order: integer-like keys
first in ascending numeric order, then the remaining keys in
first-occurrence order — so exactly first-occurrence order whenever no group
key is an integer-like string. -/
theorem groupRows_first_occurrence_when_no_numeric_keys
    (rows mapped : List Row) (gcol : String) (loops : List String)
    (hnk : ∀ q ∈ rows.zip mapped,
      isArrayIndexKey (groupKeyOf q.1 gcol) = false) :
    groupRows rows mapped gcol loops = specGroupRows rows mapped gcol loops := by
  have hno : ∀ q ∈ specPartition gcol (rows.zip mapped),
      isArrayIndexKey q.1 = false := by
    intro q hq
    have hq1 : q.1 ∈ (specPartition gcol (rows.zip mapped)).map Prod.fst :=
      List.mem_map.mpr ⟨q, hq, rfl⟩
    rw [specPartition_map_fst, mem_setOfList] at hq1
    obtain ⟨p, hp, hpk⟩ := List.mem_map.mp hq1
    rw [← hpk]
    exact hnk p hp
  unfold groupRows
  rw [buildGroups_eq_specPartition, jsEntryOrder_of_no_index _ hno]
  unfold specPartition specGroupRows
  rw [List.map_map]
  rfl

theorem groupRows_first_occurrence_when_no_numeric_keys_witness :
    groupRows [[("id", "x2")], [("id", "x1")]] [[("n", "B")], [("n", "A")]]
        "id" ["items"]
      = specGroupRows [[("id", "x2")], [("id", "x1")]] [[("n", "B")], [("n", "A")]]
        "id" ["items"] :=
  groupRows_first_occurrence_when_no_numeric_keys
    [[("id", "x2")], [("id", "x1")]] [[("n", "B")], [("n", "A")]]
    "id" ["items"] (by decide)

/-- JS regex `\w` or `-`: the character class `[\w\d_\-]` of the analyzer
patterns (ASCII letters, digits, underscore, hyphen). -/
def isWordChar (c : Char) : Bool :=
  c.isAlphanum || c == '_' || c == '-'

/-- JS regex `\s` on the ASCII range. -/
def isJsSpace (c : Char) : Bool :=
  c == ' ' || c == '\t' || c == '\n' || c == '\r' || c == '\x0b' || c == '\x0c'

/-- The part of the scalar-placeholder pattern after the opening `%`:
`\s*([\w\d_\-]+)\s*%`.  The three character classes and the delimiter are
pairwise disjoint, so maximal munch is exact for the regex engine's greedy
matching. -/
def matchVarBody (cs : List Char) : Option (String × List Char) :=
  let r1 := cs.dropWhile isJsSpace
  let id := r1.takeWhile isWordChar
  let r2 := r1.dropWhile isWordChar
  if id.isEmpty then none
  else
    match r2.dropWhile isJsSpace with
    | '%' :: r4 => some (String.mk id, r4)
    | _ => none

/-- One match attempt of the earlier analyzer's scalar regex
`/%\s*([\w\d_\-]+)\s*%/g` at the current position. -/
def matchVarOld (cs : List Char) : Option (String × List Char) :=
  match cs with
  | c :: rest => if c == '%' then matchVarBody rest else none
  | [] => none

/-- One match attempt of the later analyzer's scalar regex
`/%(?![#/])\s*([\w\d_\-]+)\s*%/g` at the current position: the negative
lookahead rejects `#` or `/` directly after the opening delimiter. -/
def matchVarNew (cs : List Char) : Option (String × List Char) :=
  match cs with
  | c :: rest =>
    if c == '%' then
      match rest with
      | d :: _ => if d == '#' || d == '/' then none else matchVarBody rest
      | [] => matchVarBody rest
    else none
  | [] => none

/-- One match attempt of the loop regex
`/(?:\{|%)\s*#\s*([\w\d_\-]+)\s*(?:\}|%)/g` at the current position. -/
def matchLoop (cs : List Char) : Option (String × List Char) :=
  match cs with
  | c :: rest =>
    if c == '{' || c == '%' then
      match rest.dropWhile isJsSpace with
      | '#' :: r2 =>
        let r3 := r2.dropWhile isJsSpace
        let id := r3.takeWhile isWordChar
        let r4 := r3.dropWhile isWordChar
        if id.isEmpty then none
        else
          match r4.dropWhile isJsSpace with
          | d :: r6 => if d == '}' || d == '%' then some (String.mk id, r6) else none
          | [] => none
      | _ => none
    else none
  | [] => none

/-- The `while ((match = regex.exec(text)) !== null)` loop with the `g`
flag: repeatedly find the leftmost match from the current position, resume
after its end, otherwise advance one character.  Fuel bounds the recursion;
each step consumes at least one character, so `length + 1` suffices. -/
def scanWith (m : List Char → Option (String × List Char)) :
    Nat → List Char → List String
  | 0, _ => []
  | _ + 1, [] => []
  | fuel + 1, c :: rest =>
    match m (c :: rest) with
    | some (id, r) => id :: scanWith m fuel r
    | none => scanWith m fuel rest

/-- All scalar-placeholder matches of the later analyzer, in match order. -/
def scanVars (t : String) : List String :=
  scanWith matchVarNew (t.data.length + 1) t.data

/-- All scalar-placeholder matches of the earlier analyzer, in match order. -/
def scanVarsOld (t : String) : List String :=
  scanWith matchVarOld (t.data.length + 1) t.data

/-- All loop-marker matches, in match order. -/
def scanLoops (t : String) : List String :=
  scanWith matchLoop (t.data.length + 1) t.data

/-- The later analyzer's `placeholders` response field: matches collected
into a JS `Set`, then listed in insertion order. -/
def analyzePlaceholders (t : String) : List String :=
  setOfList (scanVars t)

/-- The earlier analyzer's `placeholders` response field. -/
def analyzePlaceholdersOld (t : String) : List String :=
  setOfList (scanVarsOld t)

/-- The later analyzer's `loops` response field. -/
def analyzeLoops (t : String) : List String :=
  setOfList (scanLoops t)

/-- Claim C8: `analyze` deduplicates matches into sets — every scalar
identifier matched inside single-delimiter markers occurs exactly once in
`placeholders` no matter how often it repeats, every loop identifier occurs
exactly once in `loops` regardless of repetition or bracket style, and
concretely a brace marker and a delimiter marker for `items` contribute the
single entry `"items"`. -/
theorem analyze_dedup (t : String) :
    (analyzePlaceholders t).Nodup
    ∧ (∀ s, s ∈ analyzePlaceholders t ↔ s ∈ scanVars t)
    ∧ (analyzeLoops t).Nodup
    ∧ (∀ s, s ∈ analyzeLoops t ↔ s ∈ scanLoops t)
    ∧ analyzePlaceholders "%a% and %b% and %a%" = ["a", "b"]
    ∧ analyzeLoops "\x7b#items\x7d text %#items%" = ["items"] := by
  refine ⟨nodup_setOfList _, fun s => mem_setOfList _ s, nodup_setOfList _,
    fun s => mem_setOfList _ s, by decide, by decide⟩

theorem matchVar_old_eq_new (cs : List Char) :
    matchVarOld cs = matchVarNew cs := by
  match cs with
  | [] => rfl
  | c :: rest =>
    simp only [matchVarOld, matchVarNew]
    by_cases hc : (c == '%') = true
    · rw [if_pos hc, if_pos hc]
      match rest with
      | [] => rfl
      | d :: rest2 =>
        show matchVarBody (d :: rest2)
          = if (d == '#' || d == '/') = true then none
            else matchVarBody (d :: rest2)
        by_cases hd : (d == '#' || d == '/') = true
        · rw [if_pos hd]
          have hdd : d = '#' ∨ d = '/' := by simpa using hd
          have hw : isWordChar d = false := by
            rcases hdd with h | h <;> subst h <;> decide
          have hs : isJsSpace d = false := by
            rcases hdd with h | h <;> subst h <;> decide
          simp [matchVarBody, List.dropWhile_cons, List.takeWhile_cons, hs, hw]
        · rw [if_neg hd]
    · rw [if_neg hc, if_neg hc]

theorem scanWith_congr (f g : List Char → Option (String × List Char))
    (hfg : ∀ cs, f cs = g cs) :
    ∀ (fuel : Nat) (cs : List Char), scanWith f fuel cs = scanWith g fuel cs := by
  intro fuel
  induction fuel with
  | zero => intro cs; rfl
  | succ n ih =>
    intro cs
    match cs with
    | [] => rfl
    | c :: rest =>
      simp only [scanWith]
      rw [hfg (c :: rest)]
      cases hg : g (c :: rest) with
      | none => simpa only [hg] using ih rest
      | some p =>
        obtain ⟨id, r⟩ := p
        simp only [hg]
        rw [ih r]

/-- Claim C10: the earlier analyzer's scalar scan (regex without the
`(?![#/])` lookahead) and the later analyzer's scalar scan (with it) return
exactly the same placeholders for every extracted text — a `#` or `/`
directly after the opening delimiter can never begin a
whitespace-plus-identifier match, so the lookahead never changes the match
set. -/
theorem old_new_placeholder_scans_agree (t : String) :
    analyzePlaceholdersOld t = analyzePlaceholders t := by
  unfold analyzePlaceholdersOld analyzePlaceholders scanVarsOld scanVars
  rw [scanWith_congr matchVarOld matchVarNew matchVar_old_eq_new]

end Certifier
